import Mathlib

/-!
Shallow embedding of `compare_app.py`: the reconciliation engine of the
Smart PDF / Excel comparison tool.  Tables are ordered lists of named
columns; cells are scalars that may be absent (`None`/`NaN` in pandas).
The pandas operations used by the source (`astype(str)`, `fillna`,
`reindex`, elementwise `!=` with `.loc`, `to_csv(index=False)`) are
embedded as functions on these lists.  Python set/dict iteration order is
unspecified; this model fixes the deterministic first-occurrence order,
and no theorem below depends on enumeration order beyond that choice.
-/

namespace CompareApp

/-- A cell of a tabular record set: a scalar string value or an absent
value (pandas `None`/`NaN`). -/
inductive Cell where
  | str (s : String)
  | absent
deriving DecidableEq, Repr

/-- Python `str()` of a cell, as pandas `astype(str)` applies it
elementwise.  An absent value stringifies to the literal token `"None"`
(object dtype; float dtype would give `"nan"` — likewise a non-empty
literal token). -/
def Cell.pyStr : Cell → String
  | .str s => s
  | .absent => "None"

/-- pandas `Series.astype(str)`: every cell, absent ones included, is
replaced by its string representation, so the result holds no absent
values. -/
def astype_str (col : List Cell) : List Cell :=
  col.map (fun c => .str c.pyStr)

/-- pandas `Series.fillna(fill)`: replace each absent cell by `fill`,
leave present cells unchanged. -/
def fillna (fill : String) (col : List Cell) : List Cell :=
  col.map (fun c =>
    match c with
    | .absent => .str fill
    | .str s => .str s)

/-- The cell-sequence normalization of `compare_dataframes_smart`
(source lines 37-38): `.astype(str).fillna("")`, then read the strings
out.  Note the source order: `astype(str)` runs first, `fillna("")`
second. -/
def normalizeColumn (col : List Cell) : List String :=
  (fillna "" (astype_str col)).map Cell.pyStr

/-- pandas `Series.reindex(range n, fill_value := f)` on a positionally
indexed series: the first `n` positions, missing ones filled with `f`. -/
def reindexFill : Nat → String → List String → List String
  | 0, _, _ => []
  | n + 1, f, [] => f :: reindexFill n f []
  | n + 1, f, x :: xs => x :: reindexFill n f xs

/-- One matched column pair of `compare_dataframes_smart` (source lines
39-42): pad both normalized sequences to the longer length with `""`,
then keep exactly the positions where the two padded values differ,
as `(row index, Excel value, PDF value)` triples
(`pd.DataFrame({"Excel": s1, "PDF": s2}).loc[s1 != s2]`). -/
def compareColumn (s1 s2 : List String) : List (Nat × String × String) :=
  let n := max s1.length s2.length
  let p1 := reindexFill n "" s1
  let p2 := reindexFill n "" s2
  ((List.range n).map (fun i => (i, p1.getD i "", p2.getD i ""))).filter
    (fun q => q.2.1 ≠ q.2.2)

/-- Python `str.lower()`, character by character.  `Char.toLower` covers
the ASCII range, which is the relevant one for column names here. -/
def pyLower (s : String) : String :=
  String.mk (s.data.map Char.toLower)

/-- First-occurrence deduplication, the deterministic stand-in for
Python's unordered `set` built from a list. -/
def dedupFirst (xs : List String) : List String :=
  xs.foldl (fun acc c => if c ∈ acc then acc else acc ++ [c]) []

/-- `match_columns` (source lines 24-31).  Exact pass: the intersection
of the two column-name sets, each shared name paired with itself (the
source iterates `zip(shared_cols, shared_cols)` downstream).  If the
exact intersection is empty, the case-insensitive fallback lower-cases
both sides, intersects, and maps the original-cased name from the first
table to the original-cased name from the second; the Python dict
comprehensions `{c.lower(): c for c in df.columns}` keep, for each
lower-cased key, the last column with that key. -/
def match_columns (cols1 cols2 : List String) : List (String × String) :=
  let shared := (dedupFirst cols1).filter (fun c => c ∈ cols2)
  if shared.isEmpty then
    let sharedLower := (dedupFirst (cols1.map pyLower)).filter
      (fun k => k ∈ cols2.map pyLower)
    sharedLower.filterMap (fun k =>
      match (cols1.filter (fun c => pyLower c = k)).getLast?,
            (cols2.filter (fun c => pyLower c = k)).getLast? with
      | some a, some b => some (a, b)
      | _, _ => none)
  else
    shared.map (fun c => (c, c))

/-- A tabular record set: an ordered sequence of named columns, each an
ordered sequence of cells. -/
structure Table where
  cols : List (String × List Cell)
deriving DecidableEq, Repr

/-- The column names of a table, in order. -/
def Table.columns (t : Table) : List String :=
  t.cols.map Prod.fst

/-- Column lookup by name (`df[col]`); the names reaching it are unique
in the tables the comparison builds, so first match suffices. -/
def Table.getCol (t : Table) (c : String) : List Cell :=
  ((t.cols.find? (fun p => p.1 = c)).map Prod.snd).getD []

/-- One row of the structured mismatch report: the aligned row index,
the normalized value from the Excel side, the normalized value from the
PDF side, and the Excel-side column name (`mismatches["Column"] =
col_excel`, source line 44). -/
structure Mismatch where
  row : Nat
  excel : String
  pdf : String
  column : String
deriving DecidableEq, Repr

/-- `compare_dataframes_smart` (source lines 33-46): match columns, then
for every matched pair normalize both cell sequences, compare them
positionally, and concatenate the per-column mismatch sets in matching
order. -/
def compare_dataframes_smart (dfE dfP : Table) : List Mismatch :=
  ((match_columns dfE.columns dfP.columns).map (fun p =>
    (compareColumn (normalizeColumn (dfE.getCol p.1))
                   (normalizeColumn (dfP.getCol p.2))).map
      (fun q => Mismatch.mk q.1 q.2.1 q.2.2 p.1))).flatten

/-- The row count of a table, pandas-style: the longest column. -/
def Table.nrows (t : Table) : Nat :=
  t.cols.foldr (fun p acc => max p.2.length acc) 0

/-- `astype(str).fillna("")` applied to a whole table, column by column
(source line 81, first two steps). -/
def tableNormalize (t : Table) : Table :=
  Table.mk (t.cols.map (fun p => (p.1, fillna "" (astype_str p.2))))

/-- `df.values.flatten()`: the cells in row-major order. -/
def flattenRowMajor (t : Table) : List Cell :=
  ((List.range t.nrows).map
    (fun i => t.cols.map (fun p => p.2.getD i Cell.absent))).flatten

/-- The flattened spreadsheet text of source line 81:
`"\n".join(excel_data.astype(str).fillna("").values.flatten())`. -/
def excel_text (t : Table) : String :=
  String.intercalate "\n" ((flattenRowMajor (tableNormalize t)).map Cell.pyStr)

/-- A CSV field needs quoting when it holds the delimiter, the quote
character, or a line terminator (pandas `QUOTE_MINIMAL`). -/
def plainField (s : String) : Bool :=
  s.data.all (fun ch => ch != ',' && ch != '"' && ch != '\n' && ch != '\r')

/-- Render one CSV field, quoting and doubling quotes when needed. -/
def csvField (s : String) : String :=
  if plainField s then s
  else "\"" ++ (s.replace "\"" "\"\"") ++ "\""

/-- The column order of the mismatch report DataFrame, fixed by its
construction: `{"Excel": s1, "PDF": s2}` then `["Column"] = col_excel`
(source lines 42-44). -/
def dfColumns : List String :=
  ["Excel", "PDF", "Column"]

/-- The three exported fields of one mismatch record, in DataFrame
column order.  The row index is not among them. -/
def Mismatch.fields (m : Mismatch) : List String :=
  [m.excel, m.pdf, m.column]

/-- `data_diff.to_csv(index=False)` (source line 95): a header line with
the column names, then one line per record, each line newline
terminated; the DataFrame index (the row index) is dropped. -/
def to_csv (rows : List Mismatch) : String :=
  String.intercalate "," (dfColumns.map csvField) ++ "\n" ++
    String.join (rows.map (fun m =>
      String.intercalate "," (m.fields.map csvField) ++ "\n"))

/-- `.encode("utf-8")` (source line 95): the CSV text as UTF-8 bytes. -/
def csv_export (rows : List Mismatch) : ByteArray :=
  (to_csv rows).toUTF8

/-!
Text Differencer (`make_html_diff`, source lines 48-52).  The source
delegates to `difflib.HtmlDiff.make_table`, whose line alignment is
`difflib.SequenceMatcher`: repeatedly take the longest matching block —
of all maximal matching blocks the one starting earliest in `a`, and of
those the one starting earliest in `b` — and recurse on the pieces
before and after it; the gaps between matching blocks become
replace/delete/insert opcodes and the blocks become equal opcodes.  The
model below implements that contract directly (the `autojunk`
popular-element heuristic and the merging of adjacent blocks are not
modelled; neither changes which positions are tagged equal versus
changed for the inputs the theorems below consider).
-/

/-- Tag of one opcode of the line diff. -/
inductive Tag where
  | equal
  | replace
  | delete
  | insert
deriving DecidableEq, Repr

/-- One opcode: the tag plus the half-open index ranges `[a1, a2)` of
the first line sequence and `[b1, b2)` of the second. -/
structure Opcode where
  tag : Tag
  a1 : Nat
  a2 : Nat
  b1 : Nat
  b2 : Nat
deriving DecidableEq, Repr

/-- Length of the matching run starting at positions `i` in `a` and `j`
in `b`, staying below the range bounds `ahi`/`bhi`. -/
def runLen (a b : List String) (ahi bhi i j : Nat) : Nat :=
  if h : i < ahi ∧ j < bhi ∧ i < a.length ∧ j < b.length ∧
      a.getD i "" = b.getD j "" then
    runLen a b ahi bhi (i + 1) (j + 1) + 1
  else 0
termination_by ahi - i
decreasing_by have := h.1; omega

/-- All candidate matching blocks of the range `[alo, ahi) × [blo, bhi)`:
for every pair of start positions, the maximal run from there. -/
def fl_candidates (a b : List String) (alo ahi blo bhi : Nat) :
    List (Nat × Nat × Nat) :=
  (List.range' alo (ahi - alo)).flatMap (fun i =>
    (List.range' blo (bhi - blo)).map (fun j => (i, j, runLen a b ahi bhi i j)))

/-- `SequenceMatcher.find_longest_match`: among the candidates, by its
documented contract, the largest run, ties broken by the earliest start
in `a` and then in `b`; `(alo, blo, 0)` when nothing matches. -/
def find_longest_match (a b : List String) (alo ahi blo bhi : Nat) :
    Nat × Nat × Nat :=
  (fl_candidates a b alo ahi blo bhi).foldl
    (fun best c => if best.2.2 < c.2.2 then c else best) (alo, blo, 0)

/-- The recursion of `SequenceMatcher.get_matching_blocks`: take the
longest match, recurse before and after it.  The fuel argument bounds
the recursion depth; the range shrinks strictly at every level, so any
fuel above the range length is enough. -/
def mb_go (a b : List String) : Nat → Nat → Nat → Nat → Nat → List (Nat × Nat × Nat)
  | 0, _, _, _, _ => []
  | fuel + 1, alo, ahi, blo, bhi =>
    match find_longest_match a b alo ahi blo bhi with
    | (i, j, k) =>
      if k = 0 then []
      else mb_go a b fuel alo i blo j ++
        (i, j, k) :: mb_go a b fuel (i + k) ahi (j + k) bhi

/-- `SequenceMatcher.get_matching_blocks` over the whole sequences,
without the terminating sentinel (added by `get_opcodes` below). -/
def get_matching_blocks (a b : List String) : List (Nat × Nat × Nat) :=
  mb_go a b (a.length + 1) 0 a.length 0 b.length

/-- Walk the matching blocks, as `SequenceMatcher.get_opcodes` does:
each gap before a block becomes a replace (both sides non-empty),
delete (only `a` side) or insert (only `b` side) opcode, and each
non-empty block becomes an equal opcode. -/
def opcGo : Nat → Nat → List (Nat × Nat × Nat) → List Opcode
  | _, _, [] => []
  | i, j, m :: rest =>
    (if i < m.1 ∧ j < m.2.1 then [Opcode.mk .replace i m.1 j m.2.1]
     else if i < m.1 then [Opcode.mk .delete i m.1 j m.2.1]
     else if j < m.2.1 then [Opcode.mk .insert i m.1 j m.2.1]
     else []) ++
    (if 0 < m.2.2 then [Opcode.mk .equal m.1 (m.1 + m.2.2) m.2.1 (m.2.1 + m.2.2)]
     else []) ++
    opcGo (m.1 + m.2.2) (m.2.1 + m.2.2) rest

/-- `SequenceMatcher.get_opcodes`: the tagged ranges covering both
sequences, derived from the matching blocks plus the final sentinel
`(len a, len b, 0)`. -/
def get_opcodes (a b : List String) : List Opcode :=
  opcGo 0 0 (get_matching_blocks a b ++ [(a.length, b.length, 0)])

/-- Python `str.splitlines()` restricted to `"\n"` terminators, the
separator the program's flattened texts use: split on newlines, with no
trailing empty line for a newline-terminated string and no line at all
for the empty string. -/
def splitlines (s : String) : List String :=
  if s = "" then []
  else if s.endsWith "\n" then (s.splitOn "\n").dropLast
  else s.splitOn "\n"

/-- The line-level opcodes underlying `make_html_diff text1 text2`
(source lines 48-52): split both texts into lines and diff the line
sequences. -/
def make_html_diff_opcodes (text1 text2 : String) : List Opcode :=
  get_opcodes (splitlines text1) (splitlines text2)

/-! ### Helper lemmas -/

theorem reindexFill_length (n : Nat) (f : String) (xs : List String) :
    (reindexFill n f xs).length = n := by
  induction n generalizing xs with
  | zero => rfl
  | succ n ih =>
    cases xs with
    | nil => simp [reindexFill, ih]
    | cons x xs => simp [reindexFill, ih]

theorem reindexFill_getD (n : Nat) (f : String) (xs : List String) (i : Nat)
    (h : i < n) : (reindexFill n f xs).getD i f = xs.getD i f := by
  induction n generalizing xs i with
  | zero => omega
  | succ n ih =>
    cases xs with
    | nil =>
      cases i with
      | zero => simp [reindexFill]
      | succ i =>
        rw [reindexFill, List.getD_cons_succ, ih [] i (by omega)]
        simp
    | cons x xs =>
      cases i with
      | zero => simp [reindexFill]
      | succ i =>
        rw [reindexFill, List.getD_cons_succ, List.getD_cons_succ,
          ih xs i (by omega)]

theorem getD_of_length_le (xs : List String) (i : Nat) (d : String)
    (h : xs.length ≤ i) : xs.getD i d = d := by
  induction xs generalizing i with
  | nil => simp
  | cons x xs ih =>
    cases i with
    | zero => simp at h
    | succ i => rw [List.getD_cons_succ]; exact ih i (by simpa using h)

theorem mem_compareColumn (s1 s2 : List String) (i : Nat) (a b : String) :
    (i, a, b) ∈ compareColumn s1 s2 ↔
      i < max s1.length s2.length ∧ a = s1.getD i "" ∧ b = s2.getD i "" ∧
        a ≠ b := by
  simp only [compareColumn, List.mem_filter, List.mem_map, List.mem_range,
    decide_eq_true_eq]
  constructor
  · rintro ⟨⟨i', hi', heq⟩, hne⟩
    simp only [Prod.mk.injEq] at heq
    obtain ⟨rfl, rfl, rfl⟩ := heq
    exact ⟨hi', reindexFill_getD _ _ s1 i' hi',
      reindexFill_getD _ _ s2 i' hi', hne⟩
  · rintro ⟨hi, rfl, rfl, hne⟩
    refine ⟨⟨i, hi, ?_⟩, hne⟩
    rw [reindexFill_getD _ _ _ _ hi, reindexFill_getD _ _ _ _ hi]

theorem fillna_astype (f : String) (col : List Cell) :
    fillna f (astype_str col) = astype_str col := by
  induction col with
  | nil => rfl
  | cons c cs ih =>
    show Cell.str c.pyStr :: fillna f (astype_str cs) =
      Cell.str c.pyStr :: astype_str cs
    rw [ih]

theorem normalizeColumn_eq (col : List Cell) :
    normalizeColumn col = col.map Cell.pyStr := by
  rw [normalizeColumn, fillna_astype, astype_str, List.map_map]
  exact List.map_congr_left (fun c _ => rfl)

theorem mem_dedupFirst (c : String) (xs : List String) :
    c ∈ dedupFirst xs ↔ c ∈ xs := by
  have key : ∀ (ys acc : List String),
      c ∈ ys.foldl (fun acc c' => if c' ∈ acc then acc else acc ++ [c']) acc ↔
        c ∈ acc ∨ c ∈ ys := by
    intro ys
    induction ys with
    | nil => intro acc; simp
    | cons y ys ih =>
      intro acc
      rw [List.foldl_cons]
      by_cases hy : y ∈ acc
      · rw [if_pos hy, ih]
        constructor
        · rintro (h | h)
          · exact Or.inl h
          · exact Or.inr (List.mem_cons_of_mem _ h)
        · rintro (h | h)
          · exact Or.inl h
          · rcases List.mem_cons.mp h with rfl | h
            · exact Or.inl hy
            · exact Or.inr h
      · rw [if_neg hy, ih]
        simp only [List.mem_append, List.mem_singleton, List.mem_cons]
        tauto
  simpa [dedupFirst] using key xs []

theorem mem_of_getLast?_eq_some {α : Type} {l : List α} {a : α}
    (h : l.getLast? = some a) : a ∈ l := by
  obtain ⟨hl, he⟩ := List.mem_getLast?_eq_getLast (Option.mem_def.mpr h)
  exact he ▸ List.getLast_mem hl

theorem getLast?_filter_some (cols : List String) (k : String)
    (h : k ∈ cols.map pyLower) :
    ∃ a, (cols.filter (fun c => pyLower c = k)).getLast? = some a ∧
      a ∈ cols ∧ pyLower a = k := by
  have hne : cols.filter (fun c => pyLower c = k) ≠ [] := by
    obtain ⟨c, hc, he⟩ := List.mem_map.mp h
    exact List.ne_nil_of_mem (List.mem_filter.mpr ⟨hc, by simpa using he⟩)
  have hnn : (cols.filter (fun c => pyLower c = k)).getLast? ≠ none :=
    fun hn => hne (List.getLast?_eq_none_iff.mp hn)
  obtain ⟨a, ha⟩ := Option.ne_none_iff_exists'.mp hnn
  have hmem := List.mem_filter.mp (mem_of_getLast?_eq_some ha)
  exact ⟨a, ha, hmem.1, by simpa using hmem.2⟩

theorem match_columns_exact (cols1 cols2 : List String)
    (h : ∃ c, c ∈ cols1 ∧ c ∈ cols2) :
    match_columns cols1 cols2 =
      ((dedupFirst cols1).filter (fun c => c ∈ cols2)).map (fun c => (c, c)) := by
  obtain ⟨c, h1, h2⟩ := h
  have hc : c ∈ (dedupFirst cols1).filter (fun c => c ∈ cols2) :=
    List.mem_filter.mpr ⟨(mem_dedupFirst c cols1).2 h1, by simpa using h2⟩
  have hne : ¬((dedupFirst cols1).filter
      (fun c => c ∈ cols2)).isEmpty = true := by
    rw [List.isEmpty_iff]
    exact List.ne_nil_of_mem hc
  simp only [match_columns]
  rw [if_neg hne]

theorem match_columns_no_exact (cols1 cols2 : List String)
    (h : ∀ c ∈ cols1, c ∉ cols2) :
    match_columns cols1 cols2 =
      ((dedupFirst (cols1.map pyLower)).filter
          (fun k => k ∈ cols2.map pyLower)).filterMap (fun k =>
        match (cols1.filter (fun c => pyLower c = k)).getLast?,
              (cols2.filter (fun c => pyLower c = k)).getLast? with
        | some a, some b => some (a, b)
        | _, _ => none) := by
  have hnil : (dedupFirst cols1).filter (fun c => c ∈ cols2) = [] := by
    rw [List.filter_eq_nil_iff]
    intro a ha
    simpa using h a ((mem_dedupFirst a cols1).1 ha)
  simp only [match_columns]
  rw [hnil]
  rfl

theorem mem_match_columns_fallback (cols1 cols2 : List String)
    (h : ∀ c ∈ cols1, c ∉ cols2) (a b : String) :
    (a, b) ∈ match_columns cols1 cols2 ↔
      ∃ k, k ∈ cols1.map pyLower ∧ k ∈ cols2.map pyLower ∧
        (cols1.filter (fun c => pyLower c = k)).getLast? = some a ∧
        (cols2.filter (fun c => pyLower c = k)).getLast? = some b := by
  rw [match_columns_no_exact cols1 cols2 h, List.mem_filterMap]
  constructor
  · rintro ⟨k, hk, hfk⟩
    obtain ⟨hk1, hk2⟩ := List.mem_filter.mp hk
    refine ⟨k, (mem_dedupFirst _ _).1 hk1, by simpa using hk2, ?_⟩
    rcases e1 : (cols1.filter (fun c => pyLower c = k)).getLast? with _ | a'
    · rw [e1] at hfk; cases hfk
    rcases e2 : (cols2.filter (fun c => pyLower c = k)).getLast? with _ | b'
    · rw [e1, e2] at hfk; cases hfk
    rw [e1, e2] at hfk
    obtain ⟨rfl, rfl⟩ : a' = a ∧ b' = b := by
      have := Option.some.inj hfk
      exact ⟨congrArg Prod.fst this, congrArg Prod.snd this⟩
    exact ⟨rfl, rfl⟩
  · rintro ⟨k, hk1, hk2, e1, e2⟩
    refine ⟨k, List.mem_filter.mpr ⟨(mem_dedupFirst _ _).2 hk1, by simpa using hk2⟩, ?_⟩
    rw [e1, e2]

theorem match_columns_nil (cols1 cols2 : List String)
    (h : ∀ c1 ∈ cols1, ∀ c2 ∈ cols2, pyLower c1 ≠ pyLower c2) :
    match_columns cols1 cols2 = [] := by
  have hex : ∀ c ∈ cols1, c ∉ cols2 := fun c hc hc2 => h c hc c hc2 rfl
  rw [match_columns_no_exact cols1 cols2 hex]
  have hfil : (dedupFirst (cols1.map pyLower)).filter
      (fun k => k ∈ cols2.map pyLower) = [] := by
    rw [List.filter_eq_nil_iff]
    intro k hk
    simp only [decide_eq_true_eq]
    intro hmem
    obtain ⟨c1, hc1, rfl⟩ := List.mem_map.mp ((mem_dedupFirst _ _).1 hk)
    obtain ⟨c2, hc2, he⟩ := List.mem_map.mp hmem
    exact h c1 hc1 c2 hc2 he.symm
  rw [hfil]
  rfl

theorem runLen_self (a : List String) (i : Nat) :
    runLen a a a.length a.length i i = a.length - i := by
  have key : ∀ d i, a.length - i ≤ d →
      runLen a a a.length a.length i i = a.length - i := by
    intro d
    induction d with
    | zero =>
      intro i h
      unfold runLen
      rw [dif_neg]
      · omega
      · rintro ⟨h1, -, -, -, -⟩; omega
    | succ d ih =>
      intro i h
      by_cases hi : i < a.length
      · unfold runLen
        rw [dif_pos ⟨hi, hi, hi, hi, rfl⟩, ih (i + 1) (by omega)]
        omega
      · unfold runLen
        rw [dif_neg]
        · omega
        · rintro ⟨h1, -, -, -, -⟩; omega
  exact key a.length i (by omega)

theorem runLen_le (a b : List String) (ahi bhi i j : Nat) :
    runLen a b ahi bhi i j ≤ ahi - i := by
  have key : ∀ d i j, ahi - i ≤ d → runLen a b ahi bhi i j ≤ ahi - i := by
    intro d
    induction d with
    | zero =>
      intro i j h
      unfold runLen
      split
      · next hc => exact absurd hc.1 (by omega)
      · exact Nat.zero_le _
    | succ d ih =>
      intro i j h
      unfold runLen
      split
      · next hc =>
        have := ih (i + 1) (j + 1) (by omega)
        have h1 := hc.1
        omega
      · exact Nat.zero_le _
  exact key (ahi - i) i j (by omega)

theorem foldl_best_stay (l : List (Nat × Nat × Nat)) (best : Nat × Nat × Nat)
    (h : ∀ c ∈ l, c.2.2 ≤ best.2.2) :
    l.foldl (fun best c => if best.2.2 < c.2.2 then c else best) best = best := by
  induction l with
  | nil => rfl
  | cons c cs ih =>
    rw [List.foldl_cons,
      if_neg (by have := h c (List.mem_cons_self c cs); omega)]
    exact ih (fun c' hc' => h c' (List.mem_cons_of_mem c hc'))

theorem fl_candidates_size_le (a b : List String) (alo ahi blo bhi : Nat)
    (c : Nat × Nat × Nat) (hc : c ∈ fl_candidates a b alo ahi blo bhi) :
    c.2.2 ≤ ahi := by
  rw [fl_candidates, List.mem_flatMap] at hc
  obtain ⟨i, hi, hc⟩ := hc
  obtain ⟨j, hj, rfl⟩ := List.mem_map.mp hc
  exact (runLen_le a b ahi bhi i j).trans (Nat.sub_le ahi i)

theorem fl_candidates_nil (a b : List String) (alo blo bhi : Nat) :
    fl_candidates a b alo alo blo bhi = [] := by
  simp [fl_candidates]

theorem flm_empty (a b : List String) (alo blo bhi : Nat) :
    find_longest_match a b alo alo blo bhi = (alo, blo, 0) := by
  rw [find_longest_match, fl_candidates_nil]
  rfl

theorem flm_self (a : List String) (h : 0 < a.length) :
    find_longest_match a a 0 a.length 0 a.length = (0, 0, a.length) := by
  have hsplit : List.range' 0 (a.length - 0) =
      0 :: List.range' 1 (a.length - 1) := by
    rw [Nat.sub_zero]
    conv_lhs => rw [show a.length = (a.length - 1) + 1 by omega]
    rw [List.range'_succ]
  have hhead : ∃ t, fl_candidates a a 0 a.length 0 a.length =
      (0, 0, a.length) :: t := by
    rw [fl_candidates, hsplit, List.flatMap_cons, List.map_cons, runLen_self,
      Nat.sub_zero, List.cons_append]
    exact ⟨_, rfl⟩
  obtain ⟨t, ht⟩ := hhead
  rw [find_longest_match, ht, List.foldl_cons, if_pos h]
  refine foldl_best_stay t (0, 0, a.length) (fun c hc => ?_)
  exact fl_candidates_size_le a a 0 a.length 0 a.length c
    (ht ▸ List.mem_cons_of_mem _ hc)

theorem mb_go_empty_range (a b : List String) (fuel alo blo bhi : Nat) :
    mb_go a b fuel alo alo blo bhi = [] := by
  cases fuel with
  | zero => rfl
  | succ fuel =>
    simp only [mb_go]
    rw [flm_empty]
    rfl

theorem get_matching_blocks_self (a : List String) :
    get_matching_blocks a a =
      if a.length = 0 then [] else [(0, 0, a.length)] := by
  rw [get_matching_blocks]
  by_cases h : a.length = 0
  · rw [if_pos h, h]
    exact mb_go_empty_range a a (0 + 1) 0 0 0
  · rw [if_neg h]
    have hpos : 0 < a.length := Nat.pos_of_ne_zero h
    simp only [mb_go]
    rw [flm_self a hpos]
    show (if a.length = 0 then [] else
      mb_go a a a.length 0 0 0 0 ++
        (0, 0, a.length) :: mb_go a a a.length (0 + a.length) a.length
          (0 + a.length) a.length) = [(0, 0, a.length)]
    rw [if_neg h, Nat.zero_add, mb_go_empty_range, mb_go_empty_range]
    rfl

theorem get_opcodes_self (a : List String) :
    get_opcodes a a = if a.length = 0 then []
      else [Opcode.mk Tag.equal 0 a.length 0 a.length] := by
  rw [get_opcodes, get_matching_blocks_self]
  by_cases h : a.length = 0
  · rw [if_pos h, if_pos h, h]
    rfl
  · rw [if_neg h, if_neg h]
    have hpos : 0 < a.length := Nat.pos_of_ne_zero h
    simp [opcGo, hpos, Nat.pos_iff_ne_zero.mp hpos]

theorem csvField_plain (s : String) (h : plainField s = true) :
    csvField s = s := by
  rw [csvField, if_pos h]

theorem intercalate_three (x y z : String) :
    String.intercalate "," [x, y, z] = x ++ "," ++ y ++ "," ++ z := rfl

/-! ### Claims -/

/-- C1: the spec says an absent cell normalizes to the empty string and
never contributes a literal token such as "None"/"nan"; the code runs
`astype(str)` before `fillna("")`, so the absent cell is stringified to
the literal token "None" first and the `fillna` of the source is a
no-op (last conjunct) — the empty string never appears.  This theorem
evaluates the code at the failing inputs. -/
theorem C1_absent_cell_normalizes_to_literal_token :
    normalizeColumn [Cell.absent] = ["None"] ∧
    normalizeColumn [Cell.str "a", Cell.absent] = ["a", "None"] ∧
    excel_text (Table.mk [("X", [Cell.absent])]) = "None" ∧
    ∀ col : List Cell, fillna "" (astype_str col) = astype_str col :=
  ⟨rfl, rfl, rfl, fillna_astype ""⟩

/-- C2: when the two column-name sets intersect exactly, the Column
Matcher returns exactly the identity pairing on that intersection — a
pair is in the result iff it maps a shared name to itself — so the
case-insensitive fallback is never reflected in the result and every
exactly-shared name is mapped to itself. -/
theorem C2_exact_intersection_identity_pairing (cols1 cols2 : List String)
    (h : ∃ c, c ∈ cols1 ∧ c ∈ cols2) :
    ∀ p : String × String, p ∈ match_columns cols1 cols2 ↔
      p.2 = p.1 ∧ p.1 ∈ cols1 ∧ p.1 ∈ cols2 := by
  rintro ⟨x, y⟩
  rw [match_columns_exact cols1 cols2 h, List.mem_map]
  constructor
  · rintro ⟨c, hc, heq⟩
    obtain ⟨hc1, hc2⟩ := List.mem_filter.mp hc
    simp only [Prod.mk.injEq] at heq
    obtain ⟨rfl, rfl⟩ := heq
    exact ⟨rfl, (mem_dedupFirst _ _).1 hc1, by simpa using hc2⟩
  · rintro ⟨hp, h1, h2⟩
    obtain rfl : y = x := hp
    exact ⟨y, List.mem_filter.mpr ⟨(mem_dedupFirst _ _).2 h1, by simpa using h2⟩, rfl⟩

theorem C2_exact_intersection_witness :
    ("Name", "Name") ∈ match_columns ["Name"] ["Name"] :=
  (C2_exact_intersection_identity_pairing ["Name"] ["Name"]
    ⟨"Name", by decide, by decide⟩ ("Name", "Name")).2
    ⟨rfl, by decide, by decide⟩

/-- C3: when no exact column name is shared but the lower-cased name
sets overlap, the Column Matcher maps, for each shared lower-cased
name, an original-cased name of the first source to an original-cased
name of the second source. -/
theorem C3_case_insensitive_fallback_mapping (cols1 cols2 : List String)
    (hex : ∀ c ∈ cols1, c ∉ cols2)
    (hover : ∃ k, k ∈ cols1.map pyLower ∧ k ∈ cols2.map pyLower) :
    ∀ k, k ∈ cols1.map pyLower → k ∈ cols2.map pyLower →
      ∃ a b, (a, b) ∈ match_columns cols1 cols2 ∧ a ∈ cols1 ∧ b ∈ cols2 ∧
        pyLower a = k ∧ pyLower b = k := by
  intro k hk1 hk2
  obtain ⟨a, e1, ha, hla⟩ := getLast?_filter_some cols1 k hk1
  obtain ⟨b, e2, hb, hlb⟩ := getLast?_filter_some cols2 k hk2
  exact ⟨a, b,
    (mem_match_columns_fallback cols1 cols2 hex a b).mpr ⟨k, hk1, hk2, e1, e2⟩,
    ha, hb, hla, hlb⟩

theorem C3_case_insensitive_fallback_witness :
    ("Total", "total") ∈ match_columns ["Total"] ["total"] := by
  obtain ⟨a, b, hm, ha, hb, h1, h2⟩ :=
    C3_case_insensitive_fallback_mapping ["Total"] ["total"] (by decide)
      ⟨"total", by decide, by decide⟩ "total" (by decide) (by decide)
  obtain rfl : a = "Total" := by simpa using ha
  obtain rfl : b = "total" := by simpa using hb
  exact hm

/-- C4: rows are aligned purely by position — both normalized sequences
are padded with empty-string filler to the length of the longer one, so
every position of the longer sequence has a comparison partner — and on
the concrete scenario (A column "X" = ["1","2","3"], B column "X" =
["1","2"]) the full comparison produces exactly one mismatch record, at
row 2 with A="3" and B="". -/
theorem C4_positional_alignment_with_empty_filler :
    (∀ s1 s2 : List String,
      (reindexFill (max s1.length s2.length) "" s1).length =
        max s1.length s2.length ∧
      (reindexFill (max s1.length s2.length) "" s2).length =
        max s1.length s2.length) ∧
    compare_dataframes_smart
        (Table.mk [("X", [Cell.str "1", Cell.str "2", Cell.str "3"])])
        (Table.mk [("X", [Cell.str "1", Cell.str "2"])]) =
      [Mismatch.mk 2 "3" "" "X"] :=
  ⟨fun _ _ => ⟨reindexFill_length _ _ _, reindexFill_length _ _ _⟩, by decide⟩

/-- C5: the report is mismatches-only — a record `(i, a, b)` is
produced for a matched column pair exactly when `i` is a position of
the padded range and the two normalized padded values at `i` are `a`
and `b` with `a ≠ b`; when all aligned normalized values are equal
(the zero-row case included) the pair contributes no record. -/
theorem C5_mismatches_only_report (col1 col2 : List Cell) :
    (∀ i a b,
      ((i, a, b) ∈ compareColumn (normalizeColumn col1) (normalizeColumn col2) ↔
        i < max (normalizeColumn col1).length (normalizeColumn col2).length ∧
        a = (normalizeColumn col1).getD i "" ∧
        b = (normalizeColumn col2).getD i "" ∧ a ≠ b)) ∧
    ((∀ i, (normalizeColumn col1).getD i "" = (normalizeColumn col2).getD i "") →
      compareColumn (normalizeColumn col1) (normalizeColumn col2) = []) := by
  constructor
  · intro i a b
    exact mem_compareColumn _ _ i a b
  · intro hEq
    rw [List.eq_nil_iff_forall_not_mem]
    rintro ⟨i, a, b⟩ hmem
    obtain ⟨hi, ha, hb, hne⟩ := (mem_compareColumn _ _ i a b).mp hmem
    exact hne (ha.trans ((hEq i).trans hb.symm))

theorem C5_mismatches_only_witness :
    compareColumn (normalizeColumn []) (normalizeColumn []) = [] :=
  (C5_mismatches_only_report [] []).2 (fun _ => rfl)

/-- C6: when no column of one table matches a column of the other even
case-insensitively, the correspondence is empty and the full comparison
returns the empty report — the same value an all-equal comparison
returns — with no error. -/
theorem C6_empty_correspondence_empty_report (dfE dfP : Table)
    (h : ∀ c1 ∈ dfE.columns, ∀ c2 ∈ dfP.columns, pyLower c1 ≠ pyLower c2) :
    match_columns dfE.columns dfP.columns = [] ∧
      compare_dataframes_smart dfE dfP = [] := by
  have hm := match_columns_nil dfE.columns dfP.columns h
  exact ⟨hm, by rw [compare_dataframes_smart, hm]; rfl⟩

theorem C6_empty_correspondence_witness :
    match_columns (Table.mk [("A", [])]).columns
        (Table.mk [("B", [])]).columns = [] ∧
      compare_dataframes_smart (Table.mk [("A", [])])
        (Table.mk [("B", [])]) = [] :=
  C6_empty_correspondence_empty_report _ _ (by decide)

/-- C7, counterexample: the claim says the row indices of the produced
mismatch records cover the whole range `[0, max(len A, len B))` for
unequal-length pairs; on A = ["1","2"], B = ["1"] the only record is at
row 1 — row 0 holds equal values and is omitted — so the indices do not
cover the range. -/
theorem C7_full_range_coverage_counterexample :
    (["1", "2"] : List String).length ≠ (["1"] : List String).length ∧
    ¬ (∀ i < max (["1", "2"] : List String).length (["1"] : List String).length,
        ∃ q ∈ compareColumn ["1", "2"] ["1"], q.1 = i) := by
  decide

/-- C7, amended: for unequal-length column pairs every produced record's
row index lies within `[0, max(len A, len B))`, and at every position at
or beyond the shorter length one padded side is the empty-string
filler. -/
theorem C7_indices_within_range_amended (s1 s2 : List String)
    (h : s1.length ≠ s2.length) :
    (∀ q ∈ compareColumn s1 s2, q.1 < max s1.length s2.length) ∧
    (∀ i, min s1.length s2.length ≤ i → i < max s1.length s2.length →
      (reindexFill (max s1.length s2.length) "" s1).getD i "" = "" ∨
      (reindexFill (max s1.length s2.length) "" s2).getD i "" = "") := by
  constructor
  · rintro ⟨i, a, b⟩ hq
    exact ((mem_compareColumn s1 s2 i a b).mp hq).1
  · intro i hmin hmax
    rcases Nat.le_total s1.length s2.length with hle | hle
    · left
      rw [reindexFill_getD _ _ _ _ hmax]
      exact getD_of_length_le s1 i "" (Nat.min_eq_left hle ▸ hmin)
    · right
      rw [reindexFill_getD _ _ _ _ hmax]
      exact getD_of_length_le s2 i "" (Nat.min_eq_right hle ▸ hmin)

theorem C7_indices_within_range_witness :
    ((1 : Nat), ("2" : String), ("" : String)).1 <
      max (["1", "2"] : List String).length (["1"] : List String).length :=
  (C7_indices_within_range_amended ["1", "2"] ["1"] (by decide)).1
    (1, "2", "") (by decide)

/-- C8: diffing any text against an identical copy of itself yields an
all-equal diff — every opcode of the line diff is tagged equal, and
there are zero insert and zero delete opcodes. -/
theorem C8_identical_text_all_equal_diff (t : String) :
    (make_html_diff_opcodes t t).all (fun op => op.tag == Tag.equal) = true ∧
    (make_html_diff_opcodes t t).countP (fun op => op.tag == Tag.insert) = 0 ∧
    (make_html_diff_opcodes t t).countP (fun op => op.tag == Tag.delete) = 0 := by
  have h : make_html_diff_opcodes t t =
      if (splitlines t).length = 0 then []
      else [Opcode.mk Tag.equal 0 (splitlines t).length 0
        (splitlines t).length] := by
    rw [make_html_diff_opcodes]
    exact get_opcodes_self (splitlines t)
  rw [h]
  by_cases hc : (splitlines t).length = 0
  · rw [if_pos hc]
    exact ⟨rfl, rfl, rfl⟩
  · rw [if_neg hc]
    exact ⟨rfl, rfl, rfl⟩

/-- C9, counterexample: the claim says the CSV export carries each
record's row index as its position; the export writes no index at all
(`index=False`), so two reports that differ only in the row index
produce byte-for-byte the same CSV — the row index cannot be carried. -/
theorem C9_row_index_not_carried_counterexample :
    to_csv [Mismatch.mk 5 "a" "b" "X"] = to_csv [Mismatch.mk 0 "a" "b" "X"] ∧
    (Mismatch.mk 5 "a" "b" "X").row ≠ (Mismatch.mk 0 "a" "b" "X").row :=
  ⟨rfl, by decide⟩

/-- C9, amended: the CSV export has the columns Excel, PDF, Column, in
that order, one line per record in report order with the fields in that
order (shown for fields that need no quoting), and is the UTF-8
encoding of that text; the row index is dropped by the export and is
carried only by the in-memory report. -/
theorem C9_csv_shape_amended (rows : List Mismatch) (h : rows ≠ [])
    (hplain : ∀ m ∈ rows, plainField m.excel = true ∧
      plainField m.pdf = true ∧ plainField m.column = true) :
    to_csv rows = "Excel,PDF,Column\n" ++
      String.join (rows.map (fun m =>
        m.excel ++ "," ++ m.pdf ++ "," ++ m.column ++ "\n")) ∧
    csv_export rows = (to_csv rows).toUTF8 := by
  refine ⟨?_, rfl⟩
  rw [to_csv]
  have hhead : String.intercalate "," (dfColumns.map csvField) ++ "\n" =
      "Excel,PDF,Column\n" := by decide
  rw [hhead]
  congr 1
  refine congrArg String.join (List.map_congr_left ?_)
  intro m hm
  obtain ⟨he, hp, hc⟩ := hplain m hm
  show String.intercalate "," (m.fields.map csvField) ++ "\n" = _
  rw [Mismatch.fields, List.map_cons, List.map_cons, List.map_cons,
    List.map_nil, csvField_plain _ he, csvField_plain _ hp,
    csvField_plain _ hc, intercalate_three]

theorem C9_csv_shape_witness :
    to_csv [Mismatch.mk 1 "a" "b" "X"] = "Excel,PDF,Column\na,b,X\n" := by
  have h := C9_csv_shape_amended [Mismatch.mk 1 "a" "b" "X"]
    (by decide) (by decide)
  rw [h.1]
  decide

/-- C10: when one source holds two distinct column names whose
lower-cased forms coincide and the fallback is reached, the mapping
resolves the collision by last occurrence — the produced pair for that
lower-cased name is built from the last matching column of each source,
and any produced pair with that lower-cased name is exactly that one. -/
theorem C10_lowercase_collision_last_wins (cols1 cols2 : List String)
    (k : String) (hex : ∀ c ∈ cols1, c ∉ cols2)
    (a1 a2 : String) (ha1 : a1 ∈ cols1) (ha2 : a2 ∈ cols1) (hne : a1 ≠ a2)
    (hl1 : pyLower a1 = k) (hl2 : pyLower a2 = k)
    (hk2 : k ∈ cols2.map pyLower) :
    (∃ a b, (a, b) ∈ match_columns cols1 cols2 ∧
      (cols1.filter (fun c => pyLower c = k)).getLast? = some a ∧
      (cols2.filter (fun c => pyLower c = k)).getLast? = some b) ∧
    (∀ a b, (a, b) ∈ match_columns cols1 cols2 → pyLower a = k →
      (cols1.filter (fun c => pyLower c = k)).getLast? = some a ∧
      (cols2.filter (fun c => pyLower c = k)).getLast? = some b) := by
  have hk1 : k ∈ cols1.map pyLower := List.mem_map.mpr ⟨a1, ha1, hl1⟩
  constructor
  · obtain ⟨a, e1, -, -⟩ := getLast?_filter_some cols1 k hk1
    obtain ⟨b, e2, -, -⟩ := getLast?_filter_some cols2 k hk2
    exact ⟨a, b,
      (mem_match_columns_fallback cols1 cols2 hex a b).mpr
        ⟨k, hk1, hk2, e1, e2⟩, e1, e2⟩
  · intro a b hab hak
    obtain ⟨k', hk1', hk2', e1, e2⟩ :=
      (mem_match_columns_fallback cols1 cols2 hex a b).mp hab
    have haf := List.mem_filter.mp (mem_of_getLast?_eq_some e1)
    have hk'a : pyLower a = k' := by simpa using haf.2
    obtain rfl : k' = k := by rw [← hk'a, hak]
    exact ⟨e1, e2⟩

theorem C10_lowercase_collision_witness :
    ("TOTAL", "total") ∈ match_columns ["Total", "TOTAL"] ["total"] := by
  obtain ⟨⟨a, b, hm, e1, e2⟩, -⟩ :=
    C10_lowercase_collision_last_wins ["Total", "TOTAL"] ["total"] "total"
      (by decide) "Total" "TOTAL" (by decide) (by decide) (by decide)
      (by decide) (by decide) (by decide)
  have h1 : ((["Total", "TOTAL"] : List String).filter
      (fun c => pyLower c = "total")).getLast? = some "TOTAL" := by decide
  have h2 : ((["total"] : List String).filter
      (fun c => pyLower c = "total")).getLast? = some "total" := by decide
  rw [h1] at e1
  rw [h2] at e2
  obtain rfl : a = "TOTAL" := (Option.some.inj e1).symm
  obtain rfl : b = "total" := (Option.some.inj e2).symm
  exact hm

end CompareApp
